import Mathlib

/-!
# Verification of the `ft` relay: framed transport, dispatcher, state graph, mailbox

This file is a shallow embedding, in Lean 4, of the core of the `ft`
peer-to-peer file-transfer repository (Go), together with proofs that settle
the frozen specification claims against the code.

Conventions of the embedding:
* Go byte slices are `List Nat` (`Bytes`); a byte value is an unconstrained
  `Nat` (real bytes are `< 256`, which the proofs never need).
* A stream socket on the read side is a `List Bytes` (`Chunks`): the
  successive results of `conn.Read`.  The writer's bytes are the
  concatenation (`List.flatten`) of the chunks; quantifying over all chunk
  lists with a fixed flattening quantifies over every packetization.
* Slicing `b[:i]`/`b[i:]` is `List.take`/`List.drop`; an out-of-range slice
  (index past the length) is modelled as a distinguished panic outcome,
  matching the Go runtime's bounds check (for the payloads reaching that
  code path the backing capacity equals the length, e.g. a zero-length
  payload, where `cap = 0` and `b[:12]` panics unconditionally).
* Cryptographic primitives (`crypto/aes` + `cipher.NewGCM`, `gospake2`) and
  the JSON codec are external libraries, not code of this repository; they
  enter the embedding as function parameters, and the theorems assume of
  them exactly the properties the specification attributes to them
  (AEAD correctness and authentication of a tampered frame).
-/

namespace FT

abbrev Bytes := List Nat

abbrev Chunks := List Bytes

/-- The four-byte little-endian length header written by `WriteToConn`
(`binary.Write(header, binary.LittleEndian, uint32(len(b)))`,
src/hero/connection.go). -/
def lenLE32 (n : Nat) : Bytes :=
  [n % 256, n / 256 % 256, n / 65536 % 256, n / 16777216 % 256]

/-- `convertHeaderBytesToInt` (src/hero/connection.go): little-endian decode
of the four gathered header bytes into a `uint32`, returned as `int`. -/
def convertHeaderBytesToInt (header : Bytes) : Nat :=
  header.getD 0 0 + 256 * header.getD 1 0 + 65536 * header.getD 2 0 +
    16777216 * header.getD 3 0

/-- `WriteToConn` (src/hero/connection.go): prepend the four-byte
little-endian length header and emit header plus payload as one stream
write.  The result is the byte sequence put on the wire. -/
def WriteToConn (b : Bytes) : Bytes :=
  lenLE32 b.length ++ b

/--
The shared shape of the two short-read reassembly loops on the read side
(the header loop in `readHeaderBufSize` and the payload loop in
`ReadFromConn`, src/hero/connection.go): keep issuing `conn.Read` into a
buffer of the still-missing size and appending what arrived, until exactly
`needed` bytes are gathered.  A `conn.Read` consumes at most one chunk of
the stream; `none` models the loop's error return (end of stream before
`needed` bytes arrived).
-/
def readExactLoop (needed : Nat) (acc : Bytes) : Chunks → Option (Bytes × Chunks)
  | [] => if acc.length = needed then some (acc, []) else none
  | c :: cs =>
    if needed - acc.length = 0 then some (acc, c :: cs)
    else
      if (acc ++ c.take (min (needed - acc.length) c.length)).length = needed then
        some (acc ++ c.take (min (needed - acc.length) c.length),
          if min (needed - acc.length) c.length = c.length then cs
          else c.drop (min (needed - acc.length) c.length) :: cs)
      else
        readExactLoop needed (acc ++ c.take (min (needed - acc.length) c.length)) cs

/-- `readHeaderBufSize` (src/hero/connection.go): gather exactly four bytes
(looping over short reads) and decode them as the frame length. -/
def readHeaderBufSize (chunks : Chunks) : Option (Nat × Chunks) :=
  (readExactLoop 4 [] chunks).map fun p => (convertHeaderBytesToInt p.1, p.2)

/-- `ReadFromConn` (src/hero/connection.go): read the four-byte length
header, then gather exactly that many payload bytes, reassembling across
arbitrary packetization.  Returns payload, byte count and the unread rest
of the stream. -/
def ReadFromConn (chunks : Chunks) : Option (Bytes × Nat × Chunks) :=
  match readHeaderBufSize chunks with
  | none => none
  | some (bufSize, rest) =>
    match readExactLoop bufSize [] rest with
    | none => none
    | some (buf, rest') => some (buf, bufSize, rest')

theorem readExactLoop_spec (chunks : Chunks) :
    ∀ (acc : Bytes) (needed : Nat), acc.length ≤ needed →
      needed - acc.length ≤ chunks.flatten.length →
      ∃ rest, readExactLoop needed acc chunks
          = some (acc ++ chunks.flatten.take (needed - acc.length), rest)
        ∧ rest.flatten = chunks.flatten.drop (needed - acc.length) := by
  induction chunks with
  | nil =>
    intro acc needed h1 h2
    simp only [List.flatten_nil, List.length_nil, Nat.le_zero] at h2
    have heq : acc.length = needed := by omega
    refine ⟨[], ?_, ?_⟩
    · simp [readExactLoop, heq]
    · simp
  | cons c cs ih =>
    intro acc needed h1 h2
    simp only [List.flatten_cons] at h2 ⊢
    by_cases hm : needed - acc.length = 0
    · refine ⟨c :: cs, ?_, ?_⟩
      · simp [readExactLoop, hm]
      · simp [hm, List.flatten_cons]
    · rw [List.length_append] at h2
      have htake : ∀ n, n ≤ c.length →
          (c ++ cs.flatten).take n = c.take n := by
        intro n hn
        rw [List.take_append_eq_append_take, Nat.sub_eq_zero_of_le hn,
          List.take_zero, List.append_nil]
      by_cases hle : needed - acc.length ≤ c.length
      · -- the head chunk covers the remaining need
        have hk : min (needed - acc.length) c.length = needed - acc.length :=
          Nat.min_eq_left hle
        have hlen : (acc ++ c.take (needed - acc.length)).length = needed := by
          rw [List.length_append, List.length_take]
          omega
        refine ⟨if needed - acc.length = c.length then cs
                else c.drop (needed - acc.length) :: cs, ?_, ?_⟩
        · rw [htake _ hle, readExactLoop, if_neg hm, hk, if_pos hlen]
        · rw [List.drop_append_eq_append_drop, Nat.sub_eq_zero_of_le hle,
            List.drop_zero]
          by_cases hceq : needed - acc.length = c.length
          · rw [if_pos hceq, hceq, List.drop_length, List.nil_append]
          · rw [if_neg hceq, List.flatten_cons]
      · -- the head chunk is consumed whole and the loop continues
        have hclt : c.length < needed - acc.length := by omega
        have hmin : min (needed - acc.length) c.length = c.length :=
          Nat.min_eq_right (Nat.le_of_lt hclt)
        have hlen' : ¬ (acc ++ c.take c.length).length = needed := by
          rw [List.length_append, List.length_take]
          omega
        have harg1 : (acc ++ c.take c.length).length ≤ needed := by
          rw [List.length_append, List.length_take]
          omega
        have harg2 : needed - (acc ++ c.take c.length).length ≤ cs.flatten.length := by
          rw [List.length_append, List.length_take]
          omega
        obtain ⟨rest, hres, hflat⟩ := ih (acc ++ c.take c.length) needed harg1 harg2
        have hkey : c ++ cs.flatten.take (needed - (acc.length + c.length))
            = (c ++ cs.flatten).take (needed - acc.length) := by
          rw [List.take_append_eq_append_take,
            List.take_of_length_le (Nat.le_of_lt hclt)]
          congr 2
          omega
        refine ⟨rest, ?_, ?_⟩
        · rw [readExactLoop, if_neg hm, hmin, if_neg hlen', hres, List.take_length,
            List.append_assoc, List.length_append, hkey]
        · rw [List.take_length, List.length_append] at hflat
          rw [hflat, List.drop_append_eq_append_drop,
            List.drop_eq_nil_of_le (Nat.le_of_lt hclt), List.nil_append]
          congr 1
          omega

theorem convertHeaderBytesToInt_lenLE32 (n : Nat) (h : n < 4294967296) :
    convertHeaderBytesToInt (lenLE32 n) = n := by
  simp [convertHeaderBytesToInt, lenLE32]
  omega

/-- Reading one frame from a stream that carries exactly one framed write of
`b` (split into arbitrary chunks) returns exactly `b`. -/
theorem ReadFromConn_roundtrip (b : Bytes) (chunks : Chunks)
    (hlen : b.length < 4294967296)
    (hflat : chunks.flatten = WriteToConn b) :
    ∃ rest, ReadFromConn chunks = some (b, b.length, rest) ∧ rest.flatten = [] := by
  have h4 : (4 : Nat) - ([] : Bytes).length ≤ chunks.flatten.length := by
    simp [hflat, WriteToConn, lenLE32]
  obtain ⟨rest, hres, hrflat⟩ := readExactLoop_spec chunks [] 4 (by simp) h4
  have htake : chunks.flatten.take 4 = lenLE32 b.length := by
    rw [hflat]
    show (lenLE32 b.length ++ b).take 4 = lenLE32 b.length
    rw [List.take_append_eq_append_take]
    simp [lenLE32]
  have hdrop : rest.flatten = b := by
    rw [hrflat, hflat]
    show (lenLE32 b.length ++ b).drop 4 = b
    rw [List.drop_append_eq_append_drop]
    simp [lenLE32]
  obtain ⟨rest', hres', hrflat'⟩ :=
    readExactLoop_spec rest [] b.length (by simp) (by simp [hdrop])
  have hhdr : readHeaderBufSize chunks = some (b.length, rest) := by
    simp only [readHeaderBufSize, hres, Option.map_some', List.nil_append,
      List.length_nil, Nat.sub_zero]
    rw [htake, convertHeaderBytesToInt_lenLE32 b.length hlen]
  have hbody : readExactLoop b.length [] rest = some (b, rest') := by
    simp only [List.nil_append, List.length_nil, Nat.sub_zero] at hres'
    rw [hres', hdrop, List.take_length]
  refine ⟨rest', ?_, ?_⟩
  · simp only [ReadFromConn, hhdr, hbody]
  · simp only [List.length_nil, Nat.sub_zero] at hrflat'
    rw [hrflat', hdrop, List.drop_length]

/-! ## Encrypted path (src/hero/connection.go: WriteEncryptedToConn,
ReadAndDecryptFromConn) -/

/-- Error outcomes of the encrypted read path, one per `return` site of
`ReadAndDecryptFromConn` plus the runtime panic of an out-of-range slice. -/
inductive TransErr where
  | transport
  | badKey
  | sliceOOBPanic
  | authOpen
deriving DecidableEq, Repr

/-- `aes.NewCipher` accepts exactly 16-, 24- or 32-byte keys; any other
length makes it return a `KeySizeError`. -/
def aesKeyLenOK (key : Bytes) : Bool :=
  key.length = 16 || key.length = 24 || key.length = 32

/-- `WriteEncryptedToConn` (src/hero/connection.go): draw a fresh 12-byte
nonce (here a parameter, standing for the bytes `rand.Read` produced),
AEAD-seal the payload, and frame `nonce ++ ciphertext` with `WriteToConn`.
The AES-GCM `Seal` of the Go standard library is external code and enters
as the function parameter `sealFn`. -/
def WriteEncryptedToConn (sealFn : Bytes → Bytes → Bytes → Bytes)
    (key nonce b : Bytes) : Except TransErr Bytes :=
  if aesKeyLenOK key then .ok (WriteToConn (nonce ++ sealFn key nonce b))
  else .error .badKey

/-- `ReadAndDecryptFromConn` (src/hero/connection.go): read one frame, split
the first 12 bytes as the nonce and the rest as ciphertext, AEAD-open.  The
split `encryptedBytes[:12]` carries no length guard in the source; a frame
payload shorter than 12 bytes makes the slice out of range, modelled as the
distinguished `sliceOOBPanic` outcome.  `opn` stands for the external
`gcm.Open`. -/
def ReadAndDecryptFromConn (opn : Bytes → Bytes → Bytes → Option Bytes)
    (key : Bytes) (chunks : Chunks) : Except TransErr (Bytes × Nat) :=
  match ReadFromConn chunks with
  | none => .error .transport
  | some (encryptedBytes, n, _) =>
    if aesKeyLenOK key then
      if encryptedBytes.length < 12 then .error .sliceOOBPanic
      else
        match opn key (encryptedBytes.take 12) (encryptedBytes.drop 12) with
        | none => .error .authOpen
        | some unencryptedBytes => .ok (unencryptedBytes, n - 12)
    else .error .badKey

/-- Claim C8: for every byte string `b` with `|b| < 2^32`, a plaintext-path
write of `b` (four-byte little-endian length prefix plus payload, one stream
write) followed by a read of one frame returns exactly `b`, for every way
the stream is split into individual socket reads. -/
theorem claim_C8_plaintext_roundtrip (b : Bytes) (chunks : Chunks)
    (hlen : b.length < 4294967296)
    (hflat : chunks.flatten = WriteToConn b) :
    ∃ rest, ReadFromConn chunks = some (b, b.length, rest) := by
  obtain ⟨rest, h, _⟩ := ReadFromConn_roundtrip b chunks hlen hflat
  exact ⟨rest, h⟩

/-- Witness for claim C8: the 3-byte payload `[10, 20, 30]`, its frame split
into reads of sizes 1, 3, 1, 2. -/
theorem claim_C8_plaintext_roundtrip_witness :
    ∃ rest, ReadFromConn [[3], [0, 0, 0], [10], [20, 30]]
      = some ([10, 20, 30], 3, rest) :=
  claim_C8_plaintext_roundtrip [10, 20, 30] [[3], [0, 0, 0], [10], [20, 30]]
    (by decide) (by decide)

/-- Claim C1: under an AES key the AEAD accepts and a correct AEAD
(`hcorrect` is `gcm.Open`/`gcm.Seal` round-trip correctness, `htamper` is
AEAD authentication of a one-byte modification of `nonce ++ ciphertext`),
a write of `b` on the encrypted path is read back as exactly `b` however
the stream is chunked, and changing any single byte of the frame payload
after the 4-byte length prefix makes the read fail with the auth
(`gcm.Open`) error. -/
theorem claim_C1_encrypted_roundtrip_and_tamper
    (sealFn : Bytes → Bytes → Bytes → Bytes)
    (opn : Bytes → Bytes → Bytes → Option Bytes)
    (key nonce b : Bytes)
    (hkey : aesKeyLenOK key = true)
    (hnonce : nonce.length = 12)
    (hfit : 12 + (sealFn key nonce b).length < 4294967296)
    (hcorrect : opn key nonce (sealFn key nonce b) = some b)
    (htamper : ∀ i v, i < 12 + (sealFn key nonce b).length →
        v ≠ (nonce ++ sealFn key nonce b).getD i 0 →
        opn key (((nonce ++ sealFn key nonce b).set i v).take 12)
          (((nonce ++ sealFn key nonce b).set i v).drop 12) = none) :
    (∀ frame chunks, WriteEncryptedToConn sealFn key nonce b = .ok frame →
        chunks.flatten = frame →
        ReadAndDecryptFromConn opn key chunks
          = .ok (b, (sealFn key nonce b).length))
    ∧ (∀ i v chunks, i < 12 + (sealFn key nonce b).length →
        v ≠ (nonce ++ sealFn key nonce b).getD i 0 →
        chunks.flatten = WriteToConn ((nonce ++ sealFn key nonce b).set i v) →
        ReadAndDecryptFromConn opn key chunks = .error .authOpen) := by
  have hplen : (nonce ++ sealFn key nonce b).length = 12 + (sealFn key nonce b).length := by
    rw [List.length_append, hnonce]
  constructor
  · intro frame chunks hwr hflat
    rw [WriteEncryptedToConn, if_pos hkey] at hwr
    injection hwr with hwr
    obtain ⟨rest, hread⟩ := claim_C8_plaintext_roundtrip (nonce ++ sealFn key nonce b)
      chunks (by omega) (by rw [hflat, hwr])
    have hnolt : ¬ (nonce ++ sealFn key nonce b).length < 12 := by omega
    simp only [ReadAndDecryptFromConn, hread, if_pos hkey, if_neg hnolt,
      List.take_left' hnonce, List.drop_left' hnonce, hcorrect]
    congr 1
    rw [Prod.mk.injEq]
    exact ⟨rfl, by omega⟩
  · intro i v chunks hi hv hflat
    have hslen : ((nonce ++ sealFn key nonce b).set i v).length
        = 12 + (sealFn key nonce b).length := by
      rw [List.length_set, hplen]
    obtain ⟨rest, hread⟩ := claim_C8_plaintext_roundtrip
      ((nonce ++ sealFn key nonce b).set i v) chunks (by omega) hflat
    have hnolt : ¬ ((nonce ++ sealFn key nonce b).set i v).length < 12 := by omega
    simp only [ReadAndDecryptFromConn, hread, if_pos hkey, if_neg hnolt,
      htamper i v hi hv]

/-! ### Witness scaffolding for claim C1: a toy AEAD scheme satisfying the
correctness and single-byte-tamper-rejection hypotheses.

`toySeal` embeds the plaintext twice followed by key and nonce; `toyOpen`
checks that shape against the key and nonce it was handed.  A one-byte
change anywhere in `nonce ++ toySeal key nonce b` therefore fails to open. -/

def toySeal (key nonce b : Bytes) : Bytes := b ++ b ++ key ++ nonce

def toyOpen (key nonce c : Bytes) : Option Bytes :=
  if c = c.take ((c.length - (key.length + nonce.length)) / 2) ++
      c.take ((c.length - (key.length + nonce.length)) / 2) ++ key ++ nonce
  then some (c.take ((c.length - (key.length + nonce.length)) / 2)) else none

theorem getD_set_self_aux (l : List Nat) (j v : Nat) (h : j < l.length) :
    (l.set j v).getD j 0 = v := by
  rw [List.getD_eq_getElem _ _ (by simpa using h), List.getElem_set_self]

theorem toyOpen_tamper_nil (key nonce : Bytes) (hn : nonce.length = 12)
    (i v : Nat) (hi : i < 12 + (toySeal key nonce []).length)
    (hv : v ≠ (nonce ++ toySeal key nonce []).getD i 0) :
    toyOpen key (((nonce ++ toySeal key nonce []).set i v).take 12)
      (((nonce ++ toySeal key nonce []).set i v).drop 12) = none := by
  have hseal : toySeal key nonce [] = key ++ nonce := rfl
  rw [hseal] at hi hv ⊢
  by_cases hcase : i < 12
  · -- the tampered byte falls in the nonce part of the frame
    have hset : (nonce ++ (key ++ nonce)).set i v
        = nonce.set i v ++ (key ++ nonce) := by
      rw [List.set_append, if_pos (by omega)]
    have hn' : (nonce.set i v).length = 12 := by rw [List.length_set, hn]
    rw [hset, List.take_left' hn', List.drop_left' hn']
    rw [toyOpen]
    rw [if_neg]
    intro he
    have hlen0 : ((key ++ nonce).length - (key.length + (nonce.set i v).length)) / 2
        = 0 := by
      rw [List.length_append, List.length_set]
      omega
    rw [hlen0, List.take_zero, List.nil_append, List.nil_append] at he
    have : nonce = nonce.set i v := List.append_cancel_left he
    apply hv
    have hg := congrArg (fun t => t.getD i 0) this
    simp only at hg
    rw [List.getD_append _ _ _ _ (by omega), hg]
    simp [List.getD, List.getElem?_set_self, hn, hcase]
  · -- the tampered byte falls in the sealed (ciphertext) part
    have hset : (nonce ++ (key ++ nonce)).set i v
        = nonce ++ (key ++ nonce).set (i - 12) v := by
      rw [List.set_append, if_neg (by omega), hn]
    rw [hset, List.take_left' hn, List.drop_left' hn]
    rw [toyOpen]
    rw [if_neg]
    intro he
    have hlen0 : (((key ++ nonce).set (i - 12) v).length - (key.length + nonce.length)) / 2
        = 0 := by
      rw [List.length_set, List.length_append]
      omega
    rw [hlen0, List.take_zero, List.nil_append, List.nil_append] at he
    apply hv
    have hj : i - 12 < (key ++ nonce).length := by
      rw [List.length_append]
      rw [List.length_append] at hi
      omega
    have hg := congrArg (fun t => t.getD (i - 12) 0) he
    simp only at hg
    rw [List.getD_append_right _ _ _ _ (by omega), hn, ← hg,
      getD_set_self_aux _ _ _ hj]

def toyKey : Bytes := List.replicate 16 7

def toyNonce : Bytes := List.replicate 12 3

/-- Witness for claim C1: the toy AEAD with a 16-byte key, a 12-byte nonce
and the empty plaintext; the round-trip succeeds and tampering with frame
payload byte 0 (nonce) and byte 20 (ciphertext) both fail as auth errors. -/
theorem claim_C1_encrypted_roundtrip_and_tamper_witness :
    ReadAndDecryptFromConn toyOpen toyKey
        [WriteToConn (toyNonce ++ toySeal toyKey toyNonce [])]
      = .ok ([], 28)
    ∧ ReadAndDecryptFromConn toyOpen toyKey
        [WriteToConn ((toyNonce ++ toySeal toyKey toyNonce []).set 0 9)]
      = .error .authOpen
    ∧ ReadAndDecryptFromConn toyOpen toyKey
        [WriteToConn ((toyNonce ++ toySeal toyKey toyNonce []).set 20 9)]
      = .error .authOpen := by
  have h := claim_C1_encrypted_roundtrip_and_tamper toySeal toyOpen toyKey toyNonce []
    (by decide) (by decide) (by decide) (by decide)
    (toyOpen_tamper_nil toyKey toyNonce (by decide))
  refine ⟨?_, ?_, ?_⟩
  · exact h.1 (WriteToConn (toyNonce ++ toySeal toyKey toyNonce []))
      [WriteToConn (toyNonce ++ toySeal toyKey toyNonce [])] (by rfl) (by simp)
  · exact h.2 0 9 _ (by decide) (by decide) (by simp)
  · exact h.2 20 9 _ (by decide) (by decide) (by simp)

/-- Claim C9: a well-formed frame whose payload is shorter than 12 bytes
makes the encrypted read path evaluate `encryptedBytes[:12]` out of bounds
(a runtime panic), not an auth or transport error return. -/
theorem claim_C9_short_frame_panics
    (opn : Bytes → Bytes → Bytes → Option Bytes) (key : Bytes)
    (p : Bytes) (chunks : Chunks)
    (hkey : aesKeyLenOK key = true) (hp : p.length < 12)
    (hflat : chunks.flatten = WriteToConn p) :
    ReadAndDecryptFromConn opn key chunks = .error .sliceOOBPanic
    ∧ TransErr.sliceOOBPanic ≠ TransErr.authOpen
    ∧ TransErr.sliceOOBPanic ≠ TransErr.transport := by
  obtain ⟨rest, hread⟩ := claim_C8_plaintext_roundtrip p chunks (by omega) hflat
  refine ⟨?_, by decide, by decide⟩
  simp only [ReadAndDecryptFromConn, hread, if_pos hkey, if_pos hp]

/-- Witness for claim C9: the empty frame payload (where even the concrete
Go runtime must panic, the backing capacity being 0) under a 16-byte key. -/
theorem claim_C9_short_frame_panics_witness :
    ReadAndDecryptFromConn toyOpen toyKey [[0, 0, 0, 0]]
      = .error .sliceOOBPanic :=
  (claim_C9_short_frame_panics toyOpen toyKey [] [[0, 0, 0, 0]]
    (by decide) (by decide) (by decide)).1

/-! ## State graph (src/unnamed/part_009, `package ft`, type `State`) -/

/-- The two error values `ErrUnknownState` and `ErrInvalidNextState`. -/
inductive StErr where
  | unknownState
  | invalidNextState
deriving DecidableEq, Repr

/-- `State` (part_009): `states` is the Go `map[string]map[string]string`
(the inner map is keyed by the transition name and holds the name itself, so
it is a set of strings); `CurrentState` is the per-graph cursor.  The outer
map is an association list here; its keys stay distinct because `AddState`
inserts a key only when it is absent. -/
structure StateG where
  states : List (String × List String)
  CurrentState : String
deriving DecidableEq, Repr

/-- `NewState` (part_009): empty graph; `CurrentState` is the zero value. -/
def NewState : StateG := { states := [], CurrentState := "" }

/-- `SetStartState` (part_009). -/
def SetStartState (s : StateG) (state : String) : StateG :=
  { s with CurrentState := state }

/-- Inner-map insertion: `states[transition] = transition` for each
transition in order (adding a present key changes nothing). -/
def addTransitionSet (ts : List String) : List String → List String
  | [] => ts
  | t :: rest => addTransitionSet (if t ∈ ts then ts else ts ++ [t]) rest

/-- Replace the value stored under an existing key of the outer map. -/
def updateStates (l : List (String × List String)) (k : String)
    (v : List String) : List (String × List String) :=
  l.map fun p => if p.1 = k then (k, v) else p

/-- `AddState` (part_009): create the state's inner map if absent, then add
each transition to it. -/
def AddState (s : StateG) (state : String) (transitions : List String) : StateG :=
  match s.states.lookup state with
  | some ts => { s with states := updateStates s.states state (addTransitionSet ts transitions) }
  | none => { s with states := s.states ++ [(state, addTransitionSet [] transitions)] }

/-- `IsValidNextStateWithError` (part_009): `(false, ErrUnknownState)` when
the cursor is not a key of the graph, `(false, ErrInvalidNextState)` when
`nextState` is not among its transitions, `(true, nil)` otherwise. -/
def IsValidNextStateWithError (s : StateG) (nextState : String) : Bool × Option StErr :=
  match s.states.lookup s.CurrentState with
  | none => (false, some .unknownState)
  | some ts => if nextState ∈ ts then (true, none) else (false, some .invalidNextState)

/-- `IsValidNextState` (part_009). -/
def IsValidNextState (s : StateG) (nextState : String) : Bool :=
  (IsValidNextStateWithError s nextState).1

/-- `ValidateAndAdvanceToNextState` (part_009): return the error of
`IsValidNextStateWithError` unchanged, otherwise set the cursor. -/
def ValidateAndAdvanceToNextState (s : StateG) (nextState : String) :
    StateG × Option StErr :=
  match (IsValidNextStateWithError s nextState).2 with
  | some e => (s, some e)
  | none => ({ s with CurrentState := nextState }, none)

/-- The fixed relay-server graph, as built by `NewServer`
(src/internal/relay/server.go): `start → pake → hello → {external_ips, go}`,
`external_ips → go`, start state `start`. -/
def serverStates : StateG :=
  SetStartState
    (AddState
      (AddState
        (AddState
          (AddState NewState "start" ["pake"])
          "pake" ["hello"])
        "hello" ["external_ips", "go"])
      "external_ips" ["go"])
    "start"

/-- Claim C5: `ValidateAndAdvanceToNextState n` moves the cursor to `n`
exactly when it returns success; on `ErrUnknownState` or
`ErrInvalidNextState` the whole state (in particular the cursor) equals its
pre-call value. -/
theorem claim_C5_validate_and_advance_frame (s : StateG) (n : String) :
    ((ValidateAndAdvanceToNextState s n).2 = none →
      (ValidateAndAdvanceToNextState s n).1.CurrentState = n)
    ∧ (∀ e, (ValidateAndAdvanceToNextState s n).2 = some e →
      (ValidateAndAdvanceToNextState s n).1 = s)
    ∧ (s.CurrentState ≠ n →
      ((ValidateAndAdvanceToNextState s n).1.CurrentState = n ↔
        (ValidateAndAdvanceToNextState s n).2 = none)) := by
  rcases hm : (IsValidNextStateWithError s n).2 with _ | e
  · simp [ValidateAndAdvanceToNextState, hm]
  · simp only [ValidateAndAdvanceToNextState, hm]
    refine ⟨by simp, by simp, ?_⟩
    intro hne
    simp only [iff_iff_implies_and_implies]
    exact ⟨fun h => absurd h.symm (fun hq => hne hq.symm), by simp⟩

/-- Witness for claim C5: on the fixed server graph, advancing from `start`
to `pake` succeeds and moves the cursor; advancing from `start` to `hello`
fails and leaves the state untouched. -/
theorem claim_C5_validate_and_advance_frame_witness :
    (ValidateAndAdvanceToNextState serverStates "pake").1.CurrentState = "pake"
    ∧ (ValidateAndAdvanceToNextState serverStates "hello").1 = serverStates :=
  ⟨(claim_C5_validate_and_advance_frame serverStates "pake").1 (by decide),
   (claim_C5_validate_and_advance_frame serverStates "hello").2.1
     StErr.invalidNextState (by decide)⟩

/-! ## Relay mailbox (src/internal/relay/server.go `Server.helloHandler`,
src/internal/relay/server2.go `Server2.helloHandler`, and the two idle
cleaners). -/

/-- `Slot` (server.go): a connection (an opaque identifier here) plus its
role string. -/
structure Slot where
  connection : Nat
  mtype : String
deriving DecidableEq, Repr

/-- `Relay` (server.go): at most one sender and one receiver slot, plus the
bookkeeping timestamps (seconds, as integers). -/
structure Relay where
  sender : Option Slot := none
  receiver : Option Slot := none
  opened : Int := 0
  lastUsed : Int := 0
  relayID : String := ""
deriving DecidableEq, Repr

/-- The `relayList.relays` map (`map[string]*Relay`), as an association
list whose keys stay distinct. -/
abbrev RelayList := List (String × Relay)

/-- In-place mutation through the map's `*Relay` pointer: replace the value
stored under `k`. -/
def updateRelay (mb : RelayList) (k : String) (r : Relay) : RelayList :=
  mb.map fun p => if p.1 = k then (k, r) else p

/-- `Server.helloHandler` (server.go, identical switch in
`Server2.helloHandler`, server2.go): look up the relay key under the mutex;
on an existing relay, reject a role whose slot is taken
(`already have a <role>`), reject `relay slots full` when both are taken,
otherwise install the caller; on a missing key create a relay holding the
caller in the requested slot (any connection type other than `"sender"`
lands in the receiver slot, mirroring the `if/else`).  Returns the new map
and the error. -/
def helloHandler (now : Int) (mb : RelayList) (relayKey connectionType : String)
    (conn : Nat) : RelayList × Option String :=
  match mb.lookup relayKey with
  | some relay =>
    if connectionType = "receiver" ∧ relay.receiver.isSome then
      (mb, some "already have a receiver")
    else if connectionType = "sender" ∧ relay.sender.isSome then
      (mb, some "already have a sender")
    else if relay.receiver.isSome ∧ relay.sender.isSome then
      (mb, some "relay slots full")
    else if connectionType = "receiver" then
      (updateRelay mb relayKey { relay with receiver := some ⟨conn, "receiver"⟩ }, none)
    else if connectionType = "sender" then
      (updateRelay mb relayKey { relay with sender := some ⟨conn, "sender"⟩ }, none)
    else (mb, none)
  | none =>
    (mb ++ [(relayKey,
      if connectionType = "sender" then
        { opened := now, lastUsed := now, relayID := relayKey,
          sender := some ⟨conn, connectionType⟩ }
      else
        { opened := now, lastUsed := now, relayID := relayKey,
          receiver := some ⟨conn, connectionType⟩ })], none)

/-- `Relay.isInactive` (server.go): `time.Since(lastUsed) > 10 minutes`. -/
def Relay.isInactive (r : Relay) (now : Int) : Bool :=
  now - r.lastUsed > 600

/-- `Server.gatherRelaysToRemove` (server.go): under the mutex, collect
every inactive relay and delete its map entry; returns the removed relays
and the remaining map. -/
def gatherRelaysToRemove (now : Int) : RelayList → List Relay × RelayList
  | [] => ([], [])
  | p :: rest =>
    let g := gatherRelaysToRemove now rest
    if p.2.isInactive now then (p.2 :: g.1, g.2) else (g.1, p :: g.2)

/-- `relayIsCandidateForRemoval` (src/internal/network/connection.go,
`package internal`): `time.Since(lastUsed) > 3 minutes`.  (That package's
`Relay` struct has the same sender/receiver/opened/lastUsed shape.) -/
def relayIsCandidateForRemoval (relay : Relay) (now : Int) : Bool :=
  now - relay.lastUsed > 180

/-- `RelayServer.gatherCandidatesForRemoval` (network/connection.go):
collect the keys of candidate relays, without deleting. -/
def gatherCandidatesForRemoval (now : Int) : RelayList → List String
  | [] => []
  | p :: rest =>
    if relayIsCandidateForRemoval p.2 now then
      p.1 :: gatherCandidatesForRemoval now rest
    else gatherCandidatesForRemoval now rest

/-- `RelayServer.cleanupRelay` (network/connection.go): re-check the key
under the mutex, close both slot connections and delete the entry if the
relay is still a candidate.  Returns the new map and the closed
connections. -/
def cleanupRelay (mb : RelayList) (relayKey : String) (now : Int) :
    RelayList × List Nat :=
  match mb.lookup relayKey with
  | none => (mb, [])
  | some relay =>
    if relayIsCandidateForRemoval relay now then
      (mb.filter (fun p => ¬ p.1 = relayKey),
        (relay.receiver.map Slot.connection).toList ++
          (relay.sender.map Slot.connection).toList)
    else (mb, [])

/-- The slot-key column of the mailbox. -/
def keysOf (mb : RelayList) : List String := mb.map Prod.fst

/-- Mailbox states reachable from the empty map through the operations that
touch it: `helloHandler` calls and sweeps of the idle cleaner. -/
inductive Reachable : RelayList → Prop where
  | init : Reachable []
  | hello (now : Int) (relayKey connectionType : String) (conn : Nat)
      {mb : RelayList} : Reachable mb →
      Reachable (helloHandler now mb relayKey connectionType conn).1
  | clean (now : Int) {mb : RelayList} : Reachable mb →
      Reachable (gatherRelaysToRemove now mb).2

theorem keysOf_updateRelay (mb : RelayList) (k : String) (r : Relay) :
    keysOf (updateRelay mb k r) = keysOf mb := by
  induction mb with
  | nil => rfl
  | cons p rest ih =>
    simp only [updateRelay, keysOf, List.map_cons] at ih ⊢
    by_cases h : p.1 = k
    · rw [if_pos h, ih, h]
    · rw [if_neg h, ih]

theorem lookup_none_not_mem (mb : RelayList) (k : String)
    (h : mb.lookup k = none) : k ∉ keysOf mb := by
  induction mb with
  | nil => simp [keysOf]
  | cons p rest ih =>
    rw [List.lookup_cons] at h
    by_cases he : (k == p.1) = true
    · simp only [he] at h
      exact absurd h (by simp)
    · rw [Bool.not_eq_true] at he
      simp only [he] at h
      simp only [keysOf, List.map_cons, List.mem_cons]
      rintro (rfl | hmem)
      · simp at he
      · exact ih h hmem

theorem gatherRelaysToRemove_keys_sublist (now : Int) (mb : RelayList) :
    (keysOf (gatherRelaysToRemove now mb).2).Sublist (keysOf mb) := by
  induction mb with
  | nil => simp [gatherRelaysToRemove, keysOf]
  | cons p rest ih =>
    simp only [gatherRelaysToRemove, keysOf] at ih ⊢
    by_cases h : p.2.isInactive now
    · rw [if_pos h]
      exact ih.trans (List.sublist_cons_self p.1 _)
    · rw [if_neg h]
      simpa using ih.cons₂ p.1

theorem keysOf_hello_nodup (now : Int) (relayKey connectionType : String)
    (conn : Nat) (mb : RelayList) (ih : (keysOf mb).Nodup) :
    (keysOf (helloHandler now mb relayKey connectionType conn).1).Nodup := by
  cases hl : mb.lookup relayKey with
  | some relay =>
    simp only [helloHandler, hl]
    split
    · exact ih
    split
    · exact ih
    split
    · exact ih
    split
    · simpa [keysOf_updateRelay] using ih
    split
    · simpa [keysOf_updateRelay] using ih
    · exact ih
  | none =>
    simp only [helloHandler, hl, keysOf, List.map_append, List.map_cons,
      List.map_nil]
    rw [List.nodup_append]
    refine ⟨ih, by simp, ?_⟩
    intro a ha hb
    simp only [List.mem_cons, List.not_mem_nil, or_false] at hb
    exact lookup_none_not_mem mb relayKey hl (hb ▸ ha)

theorem reachable_keys_nodup {mb : RelayList} (h : Reachable mb) :
    (keysOf mb).Nodup := by
  induction h with
  | init => simp [keysOf]
  | hello now relayKey connectionType conn hr ih =>
    exact keysOf_hello_nodup now relayKey connectionType conn _ ih
  | clean now hr ih =>
    exact (gatherRelaysToRemove_keys_sublist now _).nodup ih

/-- The sender (or receiver) slots the mailbox holds under one key. -/
def slotsUnder (mb : RelayList) (key : String) (proj : Relay → Option Slot) :
    List Slot :=
  (mb.filter (fun p => p.1 == key)).filterMap (fun p => proj p.2)

theorem filter_key_len_le_one (mb : RelayList) (key : String)
    (h : (keysOf mb).Nodup) : (mb.filter (fun p => p.1 == key)).length ≤ 1 := by
  induction mb with
  | nil => simp
  | cons p rest ih =>
    simp only [keysOf, List.map_cons, List.nodup_cons] at h
    by_cases hk : (p.1 == key) = true
    · have hrest : rest.filter (fun q => q.1 == key) = [] := by
        rw [List.filter_eq_nil_iff]
        intro q hq hbeq
        apply h.1
        have hq1 : q.1 = key := by simpa using hbeq
        have hp1 : p.1 = key := by simpa using hk
        rw [hp1, ← hq1]
        exact List.mem_map_of_mem Prod.fst hq
      simp [List.filter_cons, hk, hrest]
    · rw [Bool.not_eq_true] at hk
      simp only [List.filter_cons, hk]
      simpa using ih h.2

/-- Claim C3: in every reachable mailbox state each slot key holds at most
one sender slot and at most one receiver slot, and whenever `helloHandler`
returns an error the mailbox — the requested key's relay entry included —
is exactly the pre-call map. -/
theorem claim_C3_mailbox_exclusive_and_atomic (mb : RelayList)
    (h : Reachable mb) :
    (∀ key, (slotsUnder mb key Relay.sender).length ≤ 1
      ∧ (slotsUnder mb key Relay.receiver).length ≤ 1)
    ∧ (∀ (now : Int) (relayKey connectionType : String) (conn : Nat) (e : String),
        (helloHandler now mb relayKey connectionType conn).2 = some e →
        (helloHandler now mb relayKey connectionType conn).1 = mb) := by
  constructor
  · intro key
    have hlen := filter_key_len_le_one mb key (reachable_keys_nodup h)
    constructor
    · exact le_trans (List.length_filterMap_le _ _) hlen
    · exact le_trans (List.length_filterMap_le _ _) hlen
  · intro now relayKey connectionType conn e
    cases hl : mb.lookup relayKey with
    | some relay =>
      simp only [helloHandler, hl]
      split
      · simp
      split
      · simp
      split
      · simp
      split
      · simp
      split
      · simp
      · simp
    | none => simp [helloHandler, hl]

/-- Witness for claim C3: the mailbox after a first `hello{room-7, sender}`
is reachable; it holds one sender under `room-7`, and a second
`hello{room-7, sender}` fails with `already have a sender` and leaves it
unchanged. -/
theorem claim_C3_mailbox_exclusive_and_atomic_witness :
    (slotsUnder (helloHandler 0 [] "room-7" "sender" 1).1 "room-7"
        Relay.sender).length ≤ 1
    ∧ (helloHandler 5 (helloHandler 0 [] "room-7" "sender" 1).1
        "room-7" "sender" 2).1 = (helloHandler 0 [] "room-7" "sender" 1).1 := by
  have hreach : Reachable (helloHandler 0 [] "room-7" "sender" 1).1 :=
    Reachable.hello 0 "room-7" "sender" 1 Reachable.init
  have h := claim_C3_mailbox_exclusive_and_atomic _ hreach
  exact ⟨(h.1 "room-7").1,
    h.2 5 "room-7" "sender" 2 "already have a sender" (by decide)⟩

/-- The relay of end-to-end scenario 4: both slots occupied. -/
def fullRelay : Relay :=
  { sender := some ⟨1, "sender"⟩, receiver := some ⟨2, "receiver"⟩ }

/-- Counterexample to claim C4: on a relay whose two slots are both
occupied, a `hello` requesting the sender role is answered with
`already have a sender`, not `relay slots full` — the role-conflict arm of
the switch precedes the both-slots-full arm. -/
theorem claim_C4_counterexample :
    (helloHandler 0 [("room-7", fullRelay)] "room-7" "sender" 3).2
      = some "already have a sender"
    ∧ (helloHandler 0 [("room-7", fullRelay)] "room-7" "sender" 3).2
      ≠ some "relay slots full" := by
  constructor
  · rfl
  · intro h
    simp only [helloHandler] at h
    revert h
    decide

/-- Claim C4 as amended: on a relay with both slots occupied the error is
`already have a receiver` for connection type `receiver`,
`already have a sender` for `sender`, and `relay slots full` only for any
other connection type (the switch tests the requested role first; both
`Server.helloHandler` and `Server2.helloHandler` use this same switch). -/
theorem claim_C4_full_relay_precedence (mb : RelayList) (now : Int)
    (relayKey connectionType : String) (conn : Nat) (relay : Relay)
    (hl : mb.lookup relayKey = some relay)
    (hs : relay.sender.isSome = true) (hr : relay.receiver.isSome = true) :
    (helloHandler now mb relayKey connectionType conn).2
      = some (if connectionType = "receiver" then "already have a receiver"
        else if connectionType = "sender" then "already have a sender"
        else "relay slots full") := by
  by_cases h1 : connectionType = "receiver" <;>
    by_cases h2 : connectionType = "sender" <;>
      simp [helloHandler, hl, h1, h2, hs, hr]

/-- Witness for claim C4 (amended): on the full relay, a `receiver` request,
a `sender` request and an unrecognized connection type produce the three
errors. -/
theorem claim_C4_full_relay_precedence_witness :
    (helloHandler 0 [("room-7", fullRelay)] "room-7" "receiver" 3).2
      = some "already have a receiver"
    ∧ (helloHandler 0 [("room-7", fullRelay)] "room-7" "bogus" 3).2
      = some "relay slots full" := by
  constructor
  · have h := claim_C4_full_relay_precedence [("room-7", fullRelay)] 0
      "room-7" "receiver" 3 fullRelay (by decide) (by decide) (by decide)
    simpa using h
  · have h := claim_C4_full_relay_precedence [("room-7", fullRelay)] 0
      "room-7" "bogus" 3 fullRelay (by decide) (by decide) (by decide)
    simpa using h

/-- Counterexample to claim C7: a relay idle for five minutes (300 s, not
"more than ten minutes in the past") is selected and removed by the
`internal/network` cleaner, whose `relayIsCandidateForRemoval` threshold is
three minutes. -/
theorem claim_C7_counterexample :
    relayIsCandidateForRemoval { lastUsed := 0 } 300 = true
    ∧ ¬ ((300 : Int) - 0 > 600)
    ∧ (cleanupRelay [("k", { lastUsed := 0 })] "k" 300).1 = [] := by
  refine ⟨by decide, by decide, ?_⟩
  rfl

/-- Claim C7 as amended: the server.go cleaner selects a relay exactly when
`now - lastUsed > 600` s (ten minutes) — `gatherRelaysToRemove` removes
precisely the `isInactive` entries — while the `internal/network` cleaner's
candidate test fires already at `> 180` s (three minutes); under both, a
relay updated within the last minute is never selected. -/
theorem claim_C7_eviction_thresholds :
    (∀ (r : Relay) (now : Int),
      (r.isInactive now = true ↔ now - r.lastUsed > 600)
      ∧ (relayIsCandidateForRemoval r now = true ↔ now - r.lastUsed > 180)
      ∧ (now - r.lastUsed ≤ 60 →
          r.isInactive now = false ∧ relayIsCandidateForRemoval r now = false))
    ∧ (∀ (now : Int) (mb : RelayList),
      (gatherRelaysToRemove now mb).1
          = (mb.filter (fun p => p.2.isInactive now)).map Prod.snd
      ∧ (gatherRelaysToRemove now mb).2
          = mb.filter (fun p => ! p.2.isInactive now)) := by
  constructor
  · intro r now
    refine ⟨by simp [Relay.isInactive], by simp [relayIsCandidateForRemoval], ?_⟩
    intro hrecent
    constructor
    · simp [Relay.isInactive]
      omega
    · simp [relayIsCandidateForRemoval]
      omega
  · intro now mb
    induction mb with
    | nil => exact ⟨rfl, rfl⟩
    | cons p rest ih =>
      by_cases h : p.2.isInactive now
      · simp [gatherRelaysToRemove, h, List.filter_cons, ih.1, ih.2]
      · simp [gatherRelaysToRemove, h, List.filter_cons, ih.1, ih.2]

/-- Witness for claim C7 (amended): concrete threshold checks — idle 601 s
is inactive for the ten-minute cleaner, idle 240 s is a candidate for the
three-minute cleaner, idle 30 s is selected by neither. -/
theorem claim_C7_eviction_thresholds_witness :
    ({ lastUsed := 0 } : Relay).isInactive 601 = true
    ∧ relayIsCandidateForRemoval { lastUsed := 0 } 240 = true
    ∧ ({ lastUsed := 600 } : Relay).isInactive 630 = false
    ∧ relayIsCandidateForRemoval { lastUsed := 600 } 630 = false :=
  ⟨((claim_C7_eviction_thresholds.1 { lastUsed := 0 } 601).1).mpr (by decide),
   ((claim_C7_eviction_thresholds.1 { lastUsed := 0 } 240).2.1).mpr (by decide),
   ((claim_C7_eviction_thresholds.1 { lastUsed := 600 } 630).2.2 (by decide)).1,
   ((claim_C7_eviction_thresholds.1 { lastUsed := 600 } 630).2.2 (by decide)).2⟩

/-! ## Dispatcher (src/hero/hero.go, src/hero/connection.go, the variant
copy in src/pkg/msgs/msgs.go, and the relay server handlers of
src/internal/relay/server.go). -/

/-- The wire envelope `Message{Action, Error, Body}` (src/hero/connection.go). -/
structure Message where
  action : String
  error : String
  body : Bytes
deriving DecidableEq, Repr

/-- The per-connection state a handler can reach: the hero `ctx` fields it
reads and writes (current message, key material, encryption flag), the
ordered log `out` of envelopes written to the socket by `ctx.JSON`, and the
server-side state the relay handlers close over (`Server.states`,
`Server.relayList`). -/
structure Sess where
  msg : Message := ⟨"", "", []⟩
  encryptionKey : Option Bytes := none
  encryptionOn : Bool := false
  out : List Message := []
  states : StateG := NewState
  mailbox : RelayList := []
deriving DecidableEq, Repr

/-- `Hero` (src/hero/hero.go): the registered actions (a map from name to
handler) and the middleware slice, in registration order. -/
structure HeroM where
  actions : List (String × (Sess → Sess × Option String))
  middleware : List (Sess → Sess × Option String)

/-- Run a middleware list in the given order, stopping at the first
error. -/
def runMWList : List (Sess → Sess × Option String) → Sess → Sess × Option String
  | [], s => (s, none)
  | mw :: rest, s =>
    match mw s with
    | (s', none) => runMWList rest s'
    | (s', some e) => (s', some e)

/-- `connection.runMiddleware` (src/hero/connection.go):
`for i := len(mw); i > 0; i--` runs `mw[i-1]`, i.e. indices
`len-1, …, 0` — every middleware, in reverse registration order. -/
def runMiddleware (h : HeroM) (s : Sess) : Sess × Option String :=
  runMWList h.middleware.reverse s

/-- `connection.runMiddleware`, the variant copy (src/pkg/msgs/msgs.go,
third file of the bundle): `for i := len(mw) - 1; i > 0; i--` runs `mw[i]`,
i.e. indices `len-1, …, 1` — the middleware at index 0 never runs. -/
def runMiddlewareVariant (h : HeroM) (s : Sess) : Sess × Option String :=
  runMWList (h.middleware.drop 1).reverse s

/-- `connection.getActionForMessageAction` (src/hero/connection.go). -/
def getActionForMessageAction (h : HeroM) (msgAction : String) :
    Option (Sess → Sess × Option String) :=
  h.actions.lookup msgAction

/-- `connection.runMsgAction` (src/hero/connection.go): look the action up;
store the message in the ctx; run the middleware, aborting on its error;
otherwise run the handler.  Unknown action yields
`no such action: <name>`. -/
def runMsgAction (h : HeroM) (m : Message) (s : Sess) : Sess × Option String :=
  match getActionForMessageAction h m.action with
  | some handler =>
    match runMiddleware h { s with msg := m } with
    | (s', none) => handler s'
    | (s', some e) => (s', some e)
  | none => (s, some ("no such action: " ++ m.action))

/-- One result of `connection.readMsg` as seen by the dispatch loop:
end-of-stream, any other read error, or a decoded message. -/
inductive ReadRes where
  | eof
  | rerr
  | msg (m : Message)
deriving DecidableEq, Repr

/-- `WriteErrorToConn` (src/hero/connection.go): the envelope carrying only
the error string. -/
def errorEnvelope (e : String) : Message := { action := "", error := e, body := [] }

/-- `connection.handleConnection` (src/hero/connection.go) over a finite
inbound trace: EOF closes the connection and exits (`true`); any other read
error skips to the next read; a message is dispatched through
`runMsgAction` and a returned error is written back as an error envelope,
after which the loop continues.  An exhausted trace models a connection
still blocked in its next read (`false`: never closed by the loop).
Cancellation via the hero context is not part of the trace. -/
def handleConnection (h : HeroM) : Sess → List ReadRes → Sess × Bool
  | s, [] => (s, false)
  | s, .eof :: _ => (s, true)
  | s, .rerr :: rest => handleConnection h s rest
  | s, .msg m :: rest =>
    match runMsgAction h m s with
    | (s', none) => handleConnection h s' rest
    | (s', some e) =>
      handleConnection h { s' with out := s'.out ++ [errorEnvelope e] } rest

/-- `Server.validStateMiddleware` (src/internal/relay/server.go): validate
and advance the server-side state graph on the incoming action name. -/
def validStateMiddleware (s : Sess) : Sess × Option String :=
  match ValidateAndAdvanceToNextState s.states s.msg.action with
  | (st, none) => ({ s with states := st }, none)
  | (st, some .unknownState) => ({ s with states := st }, some "unknown state")
  | (st, some .invalidNextState) =>
      ({ s with states := st }, some "invalid next state")

/-- `Server.authenticateHandler` (src/internal/relay/server.go).  External
library calls enter as parameters: `bindPake` is `c.Bind` into `msgs.Pake`
(JSON decode, extracting the `Body` field), `spakeStart` is the server's
SPAKE2 start message, `finish` is `spake.Finish`.  On bind failure or
`Finish` failure the error is returned; on success the reply envelope is
written, the key stored, and encryption turned on. -/
def authenticateHandler (bindPake : Bytes → Option Bytes) (spakeStart : Bytes)
    (finish : Bytes → Except String Bytes) (s : Sess) : Sess × Option String :=
  match bindPake s.msg.body with
  | none => (s, some "unable to parse body")
  | some pakeBody =>
    match finish pakeBody with
    | .error e => (s, some e)
    | .ok sharedKey =>
      let s1 := { s with out := s.out ++
        [({ action := "pake", error := "", body := spakeStart } : Message)] }
      let s2 := { s1 with encryptionKey := some sharedKey }
      if s2.encryptionKey = none then (s2, some "no encryption key")
      else ({ s2 with encryptionOn := true }, none)

/-- The `hello` action as registered by `Server.Start`: `c.Bind` into
`msgs.Hello` whose failure is only printed (the zero-valued hello is then
used), then `helloHandler` on the mailbox under the mutex. -/
def helloAction (bindHello : Bytes → Option (String × String)) (now : Int)
    (conn : Nat) (s : Sess) : Sess × Option String :=
  match helloHandler now s.mailbox ((bindHello s.msg.body).getD ("", "")).1
      ((bindHello s.msg.body).getD ("", "")).2 conn with
  | (mb, none) => ({ s with mailbox := mb }, none)
  | (mb, some e) => ({ s with mailbox := mb }, some e)

/-- `Server.readyHandler` (src/internal/relay/server.go): does nothing. -/
def readyHandler (s : Sess) : Sess × Option String := (s, none)

/-- The hero instance `Server.Start` builds: middleware
`validStateMiddleware`; actions `pake`, `hello`, `ready`. -/
def relayHero (bindPake : Bytes → Option Bytes) (spakeStart : Bytes)
    (finish : Bytes → Except String Bytes)
    (bindHello : Bytes → Option (String × String)) (now : Int) (conn : Nat) :
    HeroM :=
  { middleware := [validStateMiddleware],
    actions := [("pake", authenticateHandler bindPake spakeStart finish),
                ("hello", helloAction bindHello now conn),
                ("ready", readyHandler)] }

/-- The loop closes the connection only on an EOF read result. -/
theorem handleConnection_closed_only_by_eof (h : HeroM) :
    ∀ (input : List ReadRes) (s : Sess),
      (handleConnection h s input).2 = true → ReadRes.eof ∈ input := by
  intro input
  induction input with
  | nil => intro s hc; exact absurd hc (by simp [handleConnection])
  | cons r rest ih =>
    intro s hc
    cases r with
    | eof => exact List.mem_cons_self _ _
    | rerr =>
      exact List.mem_cons_of_mem _ (ih s hc)
    | msg m =>
      simp only [handleConnection] at hc
      rcases hr : runMsgAction h m s with ⟨s', e⟩
      rw [hr] at hc
      cases e with
      | none => exact List.mem_cons_of_mem _ (ih s' hc)
      | some e => exact List.mem_cons_of_mem _ (ih _ hc)

/-- A SPAKE2 `Finish` that always fails, as with a mismatched password. -/
def failFinish (e : String) : Bytes → Except String Bytes := fun _ => .error e

/-- A hero instance whose pake exchange always fails at `Finish`. -/
def c2Hero : HeroM :=
  relayHero (fun b => some b) [1] (failFinish "spake auth failed")
    (fun _ => none) 0 1

/-- A fresh relay-server session: the state cursor sits at `start`. -/
def sess0 : Sess := { states := serverStates }

/-- An inbound pake envelope. -/
def pakeMsg : Message := { action := "pake", error := "", body := [42] }

/-- Counterexample to claim C2: after a pake message whose `Finish` fails,
the loop does not close the connection (`false`), and a second inbound
message is still read and dispatched — it produces a second error envelope
on the wire.  The server writes the auth error back but keeps reading. -/
theorem claim_C2_counterexample :
    (handleConnection c2Hero sess0 [.msg pakeMsg, .msg pakeMsg]).2 = false
    ∧ (handleConnection c2Hero sess0 [.msg pakeMsg, .msg pakeMsg]).1.out
      = [errorEnvelope "spake auth failed", errorEnvelope "invalid next state"] := by
  constructor
  · rfl
  · rfl

/-- Claim C2 as amended: when `Finish` fails inside the pake handler the
server writes the error envelope back to the peer and the per-connection
loop simply continues with the rest of the inbound trace — the connection
is not closed (the loop closes it only on EOF), and later messages are
still read and dispatched. -/
theorem claim_C2_pake_finish_failure_continues
    (bindPake : Bytes → Option Bytes) (spakeStart : Bytes) (e : String)
    (finish : Bytes → Except String Bytes)
    (bindHello : Bytes → Option (String × String)) (now : Int) (conn : Nat)
    (s : Sess) (m : Message) (pb : Bytes) (rest : List ReadRes)
    (hact : m.action = "pake")
    (hmw : (ValidateAndAdvanceToNextState s.states "pake").2 = none)
    (hbind : bindPake m.body = some pb)
    (hfail : finish pb = .error e) :
    handleConnection (relayHero bindPake spakeStart finish bindHello now conn)
        s (.msg m :: rest)
      = handleConnection (relayHero bindPake spakeStart finish bindHello now conn)
          { s with
              msg := m,
              states := (ValidateAndAdvanceToNextState s.states "pake").1,
              out := s.out ++ [errorEnvelope e] } rest
    ∧ (∀ (h : HeroM) (input : List ReadRes) (s0 : Sess),
        (handleConnection h s0 input).2 = true → ReadRes.eof ∈ input) := by
  refine ⟨?_, fun h input s0 => handleConnection_closed_only_by_eof h input s0⟩
  rcases hV : ValidateAndAdvanceToNextState s.states "pake" with ⟨st, err⟩
  have herr : err = none := by
    have h2 := hmw
    rw [hV] at h2
    exact h2
  subst herr
  have hmwrun : runMiddleware
      (relayHero bindPake spakeStart finish bindHello now conn) { s with msg := m }
      = ({ s with msg := m, states := st }, none) := by
    simp only [relayHero, runMiddleware, List.reverse_cons, List.reverse_nil,
      List.nil_append, runMWList, validStateMiddleware, hact, hV]
  have hlook : getActionForMessageAction
      (relayHero bindPake spakeStart finish bindHello now conn) m.action
      = some (authenticateHandler bindPake spakeStart finish) := by
    simp [getActionForMessageAction, relayHero, hact, List.lookup]
  have hrun : runMsgAction
      (relayHero bindPake spakeStart finish bindHello now conn) m s
      = ({ s with msg := m, states := st }, some e) := by
    simp only [runMsgAction, hlook, hmwrun, authenticateHandler, hbind, hfail]
  simp only [handleConnection, hrun]

/-- Witness for claim C2 (amended): the concrete failing-pake hero; the
first pake message advances the cursor, fails, logs the envelope, and the
loop goes on to the second message. -/
theorem claim_C2_pake_finish_failure_continues_witness :
    handleConnection c2Hero sess0 [.msg pakeMsg, .msg pakeMsg]
      = handleConnection c2Hero
          { sess0 with
              msg := pakeMsg,
              states := (ValidateAndAdvanceToNextState sess0.states "pake").1,
              out := sess0.out ++ [errorEnvelope "spake auth failed"] }
          [.msg pakeMsg] :=
  (claim_C2_pake_finish_failure_continues (fun b => some b) [1]
    "spake auth failed" (failFinish "spake auth failed") (fun _ => none) 0 1
    sess0 pakeMsg [42] [.msg pakeMsg] rfl (by decide) rfl rfl).1

/-- A middleware that only logs its tag as an envelope on the session's
write log, so execution order is observable. -/
def logMW (j : Nat) : Sess → Sess × Option String :=
  fun s => ({ s with out := s.out ++ [({ action := "mw", error := "", body := [j] } : Message)] }, none)

/-- The envelope `logMW j` writes. -/
def mwMarker (j : Nat) : Message := { action := "mw", error := "", body := [j] }

theorem runMWList_log (ts : List Nat) (s : Sess) :
    runMWList (ts.map logMW) s = ({ s with out := s.out ++ ts.map mwMarker }, none) := by
  induction ts generalizing s with
  | nil => simp [runMWList]
  | cons t ts ih =>
    simp [runMWList, logMW, ih, mwMarker]

/-- Counterexample to claim C6: in the `pkg/msgs` variant of
`runMiddleware`, with two registered middleware only the one at index 1
runs — the first-registered middleware (index 0) is skipped. -/
theorem claim_C6_counterexample :
    (runMiddlewareVariant
        { actions := [], middleware := [logMW 0, logMW 1] } {}).1.out
      = [mwMarker 1]
    ∧ mwMarker 0 ∉ (runMiddlewareVariant
        { actions := [], middleware := [logMW 0, logMW 1] } {}).1.out := by
  constructor
  · rfl
  · intro hmem
    rw [show (runMiddlewareVariant
        { actions := [], middleware := [logMW 0, logMW 1] } {}).1.out
      = [mwMarker 1] from rfl] at hmem
    simp only [List.mem_cons, List.not_mem_nil, or_false] at hmem
    exact absurd (congrArg Message.body hmem) (by decide)

/-- Claim C6 as amended: `hero/connection.go`'s `runMiddleware` runs every
registered middleware in reverse registration order (last first, none
skipped); the `pkg/msgs` variant skips the middleware at index 0 and runs
indices `len-1 … 1` in that order; in both dispatch paths a middleware
error makes `runMsgAction` return it without running the handler, and the
loop writes it back as the error envelope before continuing. -/
theorem claim_C6_middleware_order_and_error :
    (∀ (tags : List Nat) (s : Sess) (acts),
      runMiddleware { actions := acts, middleware := tags.map logMW } s
        = ({ s with out := s.out ++ tags.reverse.map mwMarker }, none))
    ∧ (∀ (tags : List Nat) (s : Sess) (acts),
      runMiddlewareVariant { actions := acts, middleware := tags.map logMW } s
        = ({ s with out := s.out ++ (tags.drop 1).reverse.map mwMarker }, none))
    ∧ (∀ (h : HeroM) (m : Message) (s s' : Sess) (e : String) handler,
        getActionForMessageAction h m.action = some handler →
        runMiddleware h { s with msg := m } = (s', some e) →
        runMsgAction h m s = (s', some e))
    ∧ (∀ (h : HeroM) (m : Message) (s s' : Sess) (e : String)
        (rest : List ReadRes),
        runMsgAction h m s = (s', some e) →
        handleConnection h s (.msg m :: rest)
          = handleConnection h { s' with out := s'.out ++ [errorEnvelope e] } rest) := by
  refine ⟨?_, ?_, ?_, ?_⟩
  · intro tags s acts
    rw [runMiddleware]
    show runMWList (tags.map logMW).reverse s = _
    rw [← List.map_reverse, runMWList_log]
  · intro tags s acts
    rw [runMiddlewareVariant]
    show runMWList ((tags.map logMW).drop 1).reverse s = _
    rw [← List.map_drop, ← List.map_reverse, runMWList_log]
  · intro h m s s' e handler hlook hmw
    simp only [runMsgAction, hlook, hmw]
  · intro h m s s' e rest hrun
    simp only [handleConnection, hrun]

/-- A middleware that always fails. -/
def failMW : Sess → Sess × Option String := fun s => (s, some "mw failed")

/-- An action message for the error-path witness. -/
def aMsg : Message := { action := "a", error := "", body := [] }

/-- Witness for claim C6 (amended): two logging middlewares run as
`[1, 0]` in the hero dispatcher; with a failing middleware the handler is
skipped and the error envelope is logged by the loop. -/
theorem claim_C6_middleware_order_and_error_witness :
    runMiddleware { actions := [], middleware := [logMW 0, logMW 1] } {}
      = ({ out := [mwMarker 1, mwMarker 0] }, none)
    ∧ runMsgAction { actions := [("a", readyHandler)], middleware := [failMW] }
        aMsg {}
      = ({ msg := aMsg }, some "mw failed")
    ∧ handleConnection { actions := [("a", readyHandler)], middleware := [failMW] }
        {} [.msg aMsg]
      = ({ msg := aMsg, out := [errorEnvelope "mw failed"] }, false) := by
  have h := claim_C6_middleware_order_and_error
  refine ⟨?_, ?_, ?_⟩
  · rw [show ([logMW 0, logMW 1] : List (Sess → Sess × Option String))
        = [0, 1].map logMW from rfl, h.1 [0, 1] {} []]
    rfl
  · exact h.2.2.1 _ aMsg {} { msg := aMsg } "mw failed" readyHandler rfl rfl
  · rw [h.2.2.2 { actions := [("a", readyHandler)], middleware := [failMW] }
      aMsg {} { msg := aMsg } "mw failed" []
      (h.2.2.1 _ aMsg {} { msg := aMsg } "mw failed" readyHandler rfl rfl)]
    rfl

/-! ## Session context (src/unnamed/part_013, `package hero`, type `ctx`) -/

/-- `ctx` (part_013): `hero` and `conn` are opaque pointers (identifiers);
`store` is the `*sync.Map` scratch store, `none` being the nil pointer;
`msg` is nil until a message is dispatched.  The sync.Map's values
(`interface\x7b\x7d`) are taken as `Nat`. -/
structure CtxH where
  hero : Nat
  store : Option (List (String × Nat)) := none
  conn : Nat := 0
  msg : Option Message := none
  encryptionKey : Option Bytes := none
  encryptionOn : Bool := false
deriving DecidableEq, Repr

/-- `newCtx` (part_013, both copies): `&ctx{hero: hero, conn: conn}` —
every other field, the `store` pointer included, is left at its zero
value. -/
def newCtx (hero conn : Nat) : CtxH := { hero := hero, conn := conn }

/-- A Go computation that either returns or panics with a nil-pointer
dereference. -/
inductive PanicOr (α : Type) where
  | nilDeref
  | ok (a : α)
deriving DecidableEq, Repr

/-- `ctx.Get` (part_013): `c.store.Load(key)` — dereferences the `store`
pointer, hence panics when it is nil. -/
def ctxGet (c : CtxH) (key : String) : PanicOr (Option Nat) :=
  match c.store with
  | none => .nilDeref
  | some m => .ok (m.lookup key)

/-- `ctx.Set` (part_013): `c.store.Store(key, value)` — dereferences the
`store` pointer, hence panics when it is nil. -/
def ctxSet (c : CtxH) (key : String) (value : Nat) : PanicOr CtxH :=
  match c.store with
  | none => .nilDeref
  | some m =>
    .ok { c with store := some ((key, value) :: m.filter (fun p => ¬ p.1 = key)) }

/-- `ctx.SetEncryptionKey` (part_013). -/
def ctxSetEncryptionKey (c : CtxH) (key : Bytes) : CtxH :=
  { c with encryptionKey := some key }

/-- `ctx.TurnEncryptionOn` (part_013): fails when no key is set. -/
def ctxTurnEncryptionOn (c : CtxH) : CtxH × Option String :=
  if c.encryptionKey = none then (c, some "no encryption key")
  else ({ c with encryptionOn := true }, none)

/-- `ctx.TurnEncryptionOff` (part_013): fails when no key is set. -/
def ctxTurnEncryptionOff (c : CtxH) : CtxH × Option String :=
  if c.encryptionKey = none then (c, some "no encryption key")
  else ({ c with encryptionOn := false }, none)

/-- `c.ctx.msg = msg` as done by `runMsgAction` before dispatch. -/
def ctxSetMsg (c : CtxH) (m : Message) : CtxH := { c with msg := some m }

/-- Claim C10: `newCtx` leaves the scratch-store pointer nil, so the first
`Get` or `Set` on any fresh context is a nil `sync.Map` dereference
(panic); and no context operation of the embedding ever initializes the
store, so it stays nil — the scratch store is never usable. -/
theorem claim_C10_nil_scratch_store (hero conn : Nat) (key : String)
    (value : Nat) (k : Bytes) (m : Message) :
    (newCtx hero conn).store = none
    ∧ ctxGet (newCtx hero conn) key = .nilDeref
    ∧ ctxSet (newCtx hero conn) key value = .nilDeref
    ∧ (∀ c : CtxH, c.store = none →
        (ctxSetEncryptionKey c k).store = none
        ∧ (ctxTurnEncryptionOn c).1.store = none
        ∧ (ctxTurnEncryptionOff c).1.store = none
        ∧ (ctxSetMsg c m).store = none) := by
  refine ⟨rfl, rfl, rfl, ?_⟩
  intro c hc
  refine ⟨hc, ?_, ?_, hc⟩
  · by_cases h : c.encryptionKey = none <;> simp [ctxTurnEncryptionOn, h, hc]
  · by_cases h : c.encryptionKey = none <;> simp [ctxTurnEncryptionOff, h, hc]

/-- Witness for claim C10: the fresh context of connection 1 panics on
`Get`, and setting the encryption key still leaves the store nil. -/
theorem claim_C10_nil_scratch_store_witness :
    ctxGet (newCtx 0 1) "k" = .nilDeref
    ∧ (ctxSetEncryptionKey (newCtx 0 1) [1]).store = none := by
  have h := claim_C10_nil_scratch_store 0 1 "k" 0 [1]
    { action := "", error := "", body := [] }
  exact ⟨h.2.1, (h.2.2.2 (newCtx 0 1) h.1).1⟩

end FT
